import Mathlib

set_option linter.unusedVariables false

/-!
Shallow embedding of the EchoWrite core: the preference-learning reward model
(src/rl_models/reward_model.py), the candidate selection engine
(src/rl_models/interference_engine.py), the refinement loop of the
orchestration entry point (src/human_interface/app.py, process_url), and the
reviewer fallback policy (src/agents/reviewer_agent.py, review_content).

Python floats are modelled as rationals, JSON dictionaries as structures whose
possibly-absent keys are Option fields (dict.get with a default becomes
Option.getD), and wall-clock values (timestamps, processing times) as opaque
string/rational parameters supplied by the caller.
-/

namespace EchoWrite

/-- JSON-style review verdict dictionary, as produced by
ReviewerAgent.review_content (src/agents/reviewer_agent.py) and consumed
through dict.get by the loop in app.py and by calculate_reward.  Every numeric
key may be absent, hence Option.  The metadata sub-dictionary attached after
the try/except block (model name, temperature, wall-clock processing time) is
I/O bookkeeping and is not modelled. -/
structure Verdict where
  quality_score : Option ℚ := none
  clarity_score : Option ℚ := none
  engagement_score : Option ℚ := none
  accuracy_score : Option ℚ := none
  improvements_needed : List String := []
  ready_for_human : Option Bool := none
  overall_feedback : String := ""
deriving Repr, DecidableEq

/-- Human feedback dictionary passed to calculate_reward; the only key the
code reads is rating.  The Python truthiness test
`if human_feedback and rating in human_feedback` maps to: the Option wrapper
is none for Python None and for the empty (falsy) dict, and the rating field
is none when the key is absent. -/
structure HumanFeedback where
  rating : Option ℚ := none
deriving Repr, DecidableEq

/-- Metadata dictionary passed to record_feedback / predict_quality
(reward_model.py); keys read via dict.get, hence Option fields. -/
structure Metadata where
  style : Option String := none
  ai_scores : Option (List (String × ℚ)) := none
  iteration_count : Option Nat := none
deriving Repr, DecidableEq

/-- One feedback entry as built by RewardModel.record_feedback
(src/rl_models/reward_model.py lines 13-23). -/
structure FeedbackEntry where
  version_id : String
  timestamp : String
  content_length : Nat
  style : String
  ai_scores : List (String × ℚ)
  human_rating : ℚ
  human_feedback : String
  iteration_count : Nat
deriving Repr, DecidableEq

/-- In-memory state of a RewardModel instance: the learning_history list and
the style_preferences mapping recomputed by update_weights.  The data_path and
the on-disk copy are modelled separately (see FileState / load_history). -/
structure RewardModel where
  learning_history : List FeedbackEntry := []
  style_preferences : List (String × ℚ) := []
deriving Repr, DecidableEq

/-- Deduplication keeping the first occurrence of each element, the key order
produced by Python dict.setdefault grouping in update_weights /
get_best_parameters.  get_statistics instead iterates a Python set, whose
order is unspecified; the theorems below only use order-insensitive facts
(membership and maximality), so this one concrete order stands in for it. -/
def dedupFirst {α : Type} [DecidableEq α] : List α → List α
  | [] => []
  | x :: rest => x :: (dedupFirst rest).filter (fun t => decide (t ≠ x))

/-- The distinct styles appearing in a feedback history, in first-occurrence
order. -/
def stylesOf (history : List FeedbackEntry) : List String :=
  dedupFirst (history.map FeedbackEntry.style)

/-- All human ratings recorded for one style, in history order: the list
built by the grouping loops of update_weights, get_best_parameters,
predict_quality and get_statistics. -/
def styleRatings (history : List FeedbackEntry) (s : String) : List ℚ :=
  (history.filter (fun e => decide (e.style = s))).map FeedbackEntry.human_rating

/-- RewardModel.update_weights (reward_model.py lines 28-33): mean human
rating per style, recomputed from the whole history. -/
def update_weights (history : List FeedbackEntry) : List (String × ℚ) :=
  (stylesOf history).map (fun s =>
    let r := styleRatings history s
    (s, r.sum / r.length))

/-- RewardModel.record_feedback (reward_model.py lines 13-26): builds the
entry (datetime.now().isoformat() is the caller-supplied `now` string; the
Python float(human_rating) conversion is the identity on an already numeric
rating; no clamping is performed), appends it, and recomputes
style_preferences via update_weights.  save_history writes the same list to
disk and is modelled by the FileState wellFormed constructor below. -/
def record_feedback (m : RewardModel) (now : String) (version_id : String)
    (content : String) (metadata : Metadata) (human_rating : ℚ)
    (human_feedback : String) : RewardModel :=
  let entry : FeedbackEntry := {
    version_id := version_id
    timestamp := now
    content_length := content.length
    style := metadata.style.getD "unknown"
    ai_scores := metadata.ai_scores.getD []
    human_rating := human_rating
    human_feedback := human_feedback
    iteration_count := metadata.iteration_count.getD 1 }
  let history := m.learning_history ++ [entry]
  { learning_history := history, style_preferences := update_weights history }

/-- RewardModel.predict_quality (reward_model.py lines 35-40).  The content
argument is accepted, exactly as in the source, and never used. -/
def predict_quality (m : RewardModel) (content : String) (metadata : Metadata) : ℚ :=
  if m.learning_history = [] then 1/2
  else
    let style := metadata.style.getD "unknown"
    let scores := styleRatings m.learning_history style
    if scores = [] then 1/2 else scores.sum / scores.length

/-- The list comprehension of calculate_reward line 66: the four verdict
scores read with dict.get(k, 0), keeping only the strictly positive ones. -/
def positiveScores (ai_review : Verdict) : List ℚ :=
  ([ai_review.quality_score.getD 0, ai_review.clarity_score.getD 0,
    ai_review.engagement_score.getD 0,
    ai_review.accuracy_score.getD 0]).filter (fun s => decide (0 < s))

/-- The automated baseline of calculate_reward line 67:
sum(scores)/len(scores)/10 when any positive score exists, otherwise the
neutral 0.5. -/
def automated_base (ai_review : Verdict) : ℚ :=
  let scores := positiveScores ai_review
  if scores = [] then 1/2 else scores.sum / scores.length / 10

/-- RewardModel.calculate_reward (reward_model.py lines 65-70). -/
def calculate_reward (content : String) (ai_review : Verdict)
    (human_feedback : Option HumanFeedback) : ℚ :=
  let base := automated_base ai_review
  match human_feedback with
  | some hf =>
    match hf.rating with
    | some r => 7/10 * r + 3/10 * base
    | none => base
  | none => base

/-- The style_details value of get_statistics line 77: count of entries and,
under the key named average, the SUM of the human ratings of the style (the
source stores the sum, not the mean; its consumer in app.py line 295 divides
by count). -/
structure StyleDetail where
  count : Nat
  average : ℚ
deriving Repr, DecidableEq

/-- Return dictionary of RewardModel.get_statistics.  In the empty-history
branch the source returns a dict without the style_details key; the absent
key is modelled as the empty list. -/
structure Statistics where
  total_feedback : Nat
  average_rating : ℚ
  best_style : String
  styles_tested : Nat
  style_details : List (String × StyleDetail) := []
deriving Repr, DecidableEq

/-- Index of the first maximum of a list of rationals: the semantics of
numpy.argmax (interference_engine.py line 22) and of Python max over the
iteration order of a dict (reward_model.py lines 51-52, 78); 0 on the empty
list. -/
def argmax_first : List ℚ → Nat
  | [] => 0
  | x :: xs =>
    let j := argmax_first xs
    if x < xs.getD j x then j + 1 else 0

/-- RewardModel.get_statistics (reward_model.py lines 72-79).  best_style is
max(style_detail, key=average-field) where the average field holds the sum of
the ratings of the style: the first style, in set-iteration order, whose
rating SUM is maximal. -/
def get_statistics (m : RewardModel) : Statistics :=
  if m.learning_history = [] then
    { total_feedback := 0, average_rating := 0, best_style := "unknown",
      styles_tested := 0, style_details := [] }
  else
    let ratings := m.learning_history.map FeedbackEntry.human_rating
    let styles := stylesOf m.learning_history
    let detail := styles.map (fun s =>
      (s, { count := (m.learning_history.filter (fun e => decide (e.style = s))).length,
            average := (styleRatings m.learning_history s).sum : StyleDetail }))
    let best := styles.getD
      (argmax_first (styles.map (fun s => (styleRatings m.learning_history s).sum)))
      "unknown"
    { total_feedback := ratings.length,
      average_rating := ratings.sum / ratings.length,
      best_style := best,
      styles_tested := styles.length,
      style_details := detail }

/-- Mean human rating of a style over a history.  This definition follows the
SPECIFICATION text (best style by highest mean rating); the source computes a
sum where the spec says mean, and the two are compared in the theorems about
get_statistics. -/
def styleMean (history : List FeedbackEntry) (s : String) : ℚ :=
  let r := styleRatings history s
  r.sum / r.length

/-- State of the persisted learning_history.json file as seen by
RewardModel.load_history: absent (os.path.exists false), present and parsing
to a history list, or present but unparseable (json.load raises). -/
inductive FileState where
  | missing
  | wellFormed (history : List FeedbackEntry)
  | malformed
deriving Repr, DecidableEq

/-- The uncaught exception of a failed json.load. -/
inductive PersistenceError where
  | jsonParseError
deriving Repr, DecidableEq

/-- RewardModel.load_history (reward_model.py lines 59-63): a missing file
yields the empty list; an existing file is handed to json.load, which either
returns the stored history or raises — there is no try/except around it, so
the malformed case propagates the exception, modelled as Except.error. -/
def load_history : FileState → Except PersistenceError (List FeedbackEntry)
  | FileState.missing => Except.ok []
  | FileState.wellFormed history => Except.ok history
  | FileState.malformed => Except.error PersistenceError.jsonParseError

/-- Outcome of the try block of ReviewerAgent.review_content
(src/agents/reviewer_agent.py lines 35-57): the model call and JSON
extraction succeeded with a parsed verdict; or a response text was obtained
but JSON extraction/parsing failed (json.loads raised, or no braces were
found and ValueError was raised — text is in locals); or the upstream call
itself failed before any text was assigned. -/
inductive ReviewOutcome where
  | success (data : Verdict)
  | parseFailure (text : String)
  | callFailure (errorMessage : String)
deriving Repr, DecidableEq

/-- The fallback dictionary of the except branch (reviewer_agent.py lines
58-68); overall_feedback carries the raw response text when one was obtained,
otherwise str(e) for the caught exception. -/
def fallbackVerdict (diagnostic : String) : Verdict :=
  { quality_score := some 7, clarity_score := some 7, engagement_score := some 7,
    accuracy_score := some 8,
    improvements_needed := ["Error parsing AI response"],
    ready_for_human := some true,
    overall_feedback := diagnostic }

/-- ReviewerAgent.review_content after the try/except (reviewer_agent.py
lines 13-76): total on every outcome — a failure never escapes, the fallback
dictionary is returned instead. -/
def review_content : ReviewOutcome → Verdict
  | ReviewOutcome.success data => data
  | ReviewOutcome.parseFailure text => fallbackVerdict text
  | ReviewOutcome.callFailure errorMessage => fallbackVerdict errorMessage

/-- One element of the iterations list of process_url (app.py lines 84-89).
The processing_time key (wall clock of the generator call) is not modelled;
the record keeps the 1-based iteration index, the content snapshot and the
review of the round. -/
structure IterationRecord where
  iteration : Nat
  content : String
  review : Verdict
deriving Repr, DecidableEq

/-- The for-loop of process_url (app.py lines 71-92), with the generator and
reviewer capabilities as function parameters: writer takes the current
content and the style (WriterAgent.rewrite_content, round i = 0, detected
here by the trace still being empty), editor takes the current content and
the review of the previous record (EditorAgent.improve_content on
iterations[-1], rounds i > 0), reviewer takes the scraped original and the
new content.  The loop appends one record per round and breaks when the
review is ready_for_human and its quality_score (0 when absent) reaches the
hardcoded threshold 8; the remaining loop budget is the fuel argument. -/
def refine_loop (writer : String → String → String)
    (editor : String → Verdict → String)
    (reviewer : String → String → Verdict)
    (style : String) (original : String) :
    Nat → String → List IterationRecord → String × List IterationRecord
  | 0, current, trace => (current, trace)
  | fuel + 1, current, trace =>
    let newContent :=
      match trace.getLast? with
      | none => writer current style
      | some prev => editor current prev.review
    let review := reviewer original newContent
    let trace2 := trace ++ [⟨trace.length + 1, newContent, review⟩]
    if review.ready_for_human.getD false = true ∧ 8 ≤ review.quality_score.getD 0 then
      (newContent, trace2)
    else
      refine_loop writer editor reviewer style original fuel newContent trace2

/-- The refinement run of process_url (app.py lines 68-92) from the scraped
source content: current_content starts as the scraped text, the trace starts
empty, and the loop runs with budget max_iterations.  Returns the final
content and the iterations trace.  Scraping, progress display and version
persistence around the loop are I/O and are not modelled. -/
def process_url (writer : String → String → String)
    (editor : String → Verdict → String)
    (reviewer : String → String → Verdict)
    (source : String) (style : String) (max_iterations : Nat) :
    String × List IterationRecord :=
  refine_loop writer editor reviewer style source max_iterations source []

/-- One candidate variant as built by
ContentSelectionEngine.generate_multiple_versions
(src/rl_models/interference_engine.py lines 34-38): content, style and
ai_review keys only.  For such dictionaries, v.get with default on the keys
ai_review and human_feedback in select_best_version yields the stored review
and the absent (falsy) feedback respectively. -/
structure Variant where
  content : String
  style : String
  ai_review : Verdict
deriving Repr, DecidableEq

instance : Inhabited Variant := ⟨⟨"", "", {}⟩⟩

/-- The reward select_best_version computes for one variant
(interference_engine.py lines 15-21): calculate_reward on the variant content
and review, with the absent human feedback. -/
def variantReward (v : Variant) : ℚ :=
  calculate_reward v.content v.ai_review none

/-- ContentSelectionEngine.select_best_version (interference_engine.py lines
12-23) with the two np.random draws made explicit: random_draw is
np.random.random() (uniform on [0,1)) and random_pick the index drawn by
np.random.choice in the exploration branch.  np.argmax returns the first
index attaining the maximum; indexing an empty list, which would raise in
Python, returns none. -/
def select_best_version (exploration_rate : ℚ) (random_draw : ℚ)
    (random_pick : Nat) (versions : List Variant) : Option Variant :=
  if random_draw < exploration_rate then
    versions[random_pick % versions.length]?
  else
    let rewards := versions.map variantReward
    versions[argmax_first rewards]?

/-! Helper lemmas about the list combinators used by the embedding. -/

lemma mem_dedupFirst {α : Type} [DecidableEq α] {x : α} :
    ∀ {l : List α}, x ∈ dedupFirst l ↔ x ∈ l := by
  intro l
  induction l with
  | nil => simp [dedupFirst]
  | cons a rest ih =>
    simp [dedupFirst, List.mem_filter, ih]
    constructor
    · rintro (h | ⟨h, _⟩)
      · exact Or.inl h
      · exact Or.inr h
    · rintro (h | h)
      · exact Or.inl h
      · by_cases hx : x = a
        · exact Or.inl hx
        · exact Or.inr ⟨h, hx⟩

lemma dedupFirst_ne_nil {α : Type} [DecidableEq α] {l : List α} (h : l ≠ []) :
    dedupFirst l ≠ [] := by
  cases l with
  | nil => exact absurd rfl h
  | cons a rest => simp [dedupFirst]

lemma stylesOf_ne_nil {history : List FeedbackEntry} (h : history ≠ []) :
    stylesOf history ≠ [] := by
  apply dedupFirst_ne_nil
  simpa using h

lemma getD_eq_of_lt_length {α : Type} :
    ∀ (l : List α) (i : Nat), i < l.length → ∀ (d d₂ : α), l.getD i d = l.getD i d₂ := by
  intro l
  induction l with
  | nil => intro i h; simp at h
  | cons a rest ih =>
    intro i h d d₂
    cases i with
    | zero => simp
    | succ i =>
      simp only [List.getD_cons_succ]
      exact ih i (by simpa using h) d d₂

lemma getD_map_eq {α : Type} (f : α → ℚ) :
    ∀ (l : List α) (i : Nat), i < l.length → ∀ (d : α),
      (l.map f).getD i 0 = f (l.getD i d) := by
  intro l
  induction l with
  | nil => intro i h; simp at h
  | cons a rest ih =>
    intro i h d
    cases i with
    | zero => simp
    | succ i =>
      simp only [List.map_cons, List.getD_cons_succ]
      exact ih i (by simpa using h) d

lemma mem_of_getD {α : Type} (l : List α) (i : Nat) (h : i < l.length) (d : α) :
    l.getD i d ∈ l := by
  rw [List.getD_eq_getElem l d h]
  exact List.getElem_mem h

lemma exists_getD_of_mem {α : Type} {l : List α} {a : α} (h : a ∈ l) (d : α) :
    ∃ i, i < l.length ∧ l.getD i d = a := by
  obtain ⟨n, hn⟩ := List.mem_iff_get.mp h
  refine ⟨n.1, n.2, ?_⟩
  rw [List.getD_eq_getElem l d n.2]
  simpa [List.get_eq_getElem] using hn

lemma argmax_first_lt_length : ∀ (l : List ℚ), l ≠ [] → argmax_first l < l.length
  | [], h => absurd rfl h
  | x :: xs, _ => by
    by_cases hxs : xs = []
    · subst hxs; simp [argmax_first]
    · have ih := argmax_first_lt_length xs hxs
      simp only [argmax_first]
      split
      · simpa using Nat.succ_lt_succ ih
      · simp

lemma argmax_first_le : ∀ (l : List ℚ) (i : Nat), i < l.length →
    l.getD i 0 ≤ l.getD (argmax_first l) 0
  | [], i, h => by simp at h
  | x :: xs, i, h => by
    by_cases hxs : xs = []
    · subst hxs
      have hi : i = 0 := by simpa [Nat.lt_one_iff] using h
      subst hi
      simp [argmax_first]
    · have hj : argmax_first xs < xs.length := argmax_first_lt_length xs hxs
      have hgd : xs.getD (argmax_first xs) x = xs.getD (argmax_first xs) 0 :=
        getD_eq_of_lt_length xs (argmax_first xs) hj x 0
      simp only [argmax_first]
      by_cases hx : x < xs.getD (argmax_first xs) x
      · rw [if_pos hx]
        simp only [List.getD_cons_succ]
        cases i with
        | zero =>
          simp only [List.getD_cons_zero]
          rw [hgd] at hx
          exact le_of_lt hx
        | succ i =>
          simp only [List.getD_cons_succ]
          exact argmax_first_le xs i (by simpa using h)
      · rw [if_neg hx]
        simp only [List.getD_cons_zero]
        cases i with
        | zero => simp
        | succ i =>
          simp only [List.getD_cons_succ]
          rw [hgd] at hx
          exact le_trans (argmax_first_le xs i (by simpa using h)) (not_lt.mp hx)

lemma argmax_first_strict : ∀ (l : List ℚ) (i : Nat), i < argmax_first l →
    l.getD i 0 < l.getD (argmax_first l) 0
  | [], i, h => by simp [argmax_first] at h
  | x :: xs, i, h => by
    by_cases hxs : xs = []
    · subst hxs
      simp [argmax_first] at h
    · have hj : argmax_first xs < xs.length := argmax_first_lt_length xs hxs
      have hgd : xs.getD (argmax_first xs) x = xs.getD (argmax_first xs) 0 :=
        getD_eq_of_lt_length xs (argmax_first xs) hj x 0
      simp only [argmax_first] at h ⊢
      by_cases hx : x < xs.getD (argmax_first xs) x
      · rw [if_pos hx] at h ⊢
        simp only [List.getD_cons_succ]
        cases i with
        | zero =>
          simp only [List.getD_cons_zero]
          rw [hgd] at hx
          exact hx
        | succ i =>
          simp only [List.getD_cons_succ]
          exact argmax_first_strict xs i (by simpa using h)
      · rw [if_neg hx] at h
        simp at h

/-- Packaged argmax facts for a list obtained by mapping a score function:
the chosen index is in range, the chosen element is in the list, its score is
maximal, and every earlier element scores strictly less. -/
lemma argmax_first_map_spec {α : Type} (f : α → ℚ) (l : List α) (d : α) (h : l ≠ []) :
    argmax_first (l.map f) < l.length ∧
    l.getD (argmax_first (l.map f)) d ∈ l ∧
    (∀ a ∈ l, f a ≤ f (l.getD (argmax_first (l.map f)) d)) ∧
    (∀ j, j < argmax_first (l.map f) →
      f (l.getD j d) < f (l.getD (argmax_first (l.map f)) d)) := by
  have hmapne : l.map f ≠ [] := by simpa using h
  have hlt : argmax_first (l.map f) < l.length := by
    simpa using argmax_first_lt_length (l.map f) hmapne
  refine ⟨hlt, mem_of_getD l _ hlt d, ?_, ?_⟩
  · intro a ha
    obtain ⟨i, hi, hieq⟩ := exists_getD_of_mem ha d
    have := argmax_first_le (l.map f) i (by simpa using hi)
    rw [getD_map_eq f l i hi d, getD_map_eq f l _ hlt d, hieq] at this
    exact this
  · intro j hjlt
    have hjlen : j < l.length := lt_trans hjlt hlt
    have := argmax_first_strict (l.map f) j hjlt
    rw [getD_map_eq f l j hjlen d, getD_map_eq f l _ hlt d] at this
    exact this

lemma positiveScores_pos {ai : Verdict} {s : ℚ} (hs : s ∈ positiveScores ai) : 0 < s := by
  simp only [positiveScores, List.mem_filter, decide_eq_true_eq] at hs
  exact hs.2

lemma positiveScores_le_ten {ai : Verdict}
    (hq : ai.quality_score.getD 0 ≤ 10) (hc : ai.clarity_score.getD 0 ≤ 10)
    (he : ai.engagement_score.getD 0 ≤ 10) (ha : ai.accuracy_score.getD 0 ≤ 10) :
    ∀ s ∈ positiveScores ai, s ≤ 10 := by
  intro s hs
  simp only [positiveScores, List.mem_filter, List.mem_cons, List.mem_singleton,
    List.not_mem_nil, or_false] at hs
  rcases hs.1 with h | h | h | h <;> rw [h] <;> assumption

/-- The automated baseline lies in [0,1] whenever every positive verdict
score is at most 10 (the reviewer-defined 1-10 scale). -/
lemma automated_base_bounds (ai : Verdict)
    (h10 : ∀ s ∈ positiveScores ai, s ≤ 10) :
    0 ≤ automated_base ai ∧ automated_base ai ≤ 1 := by
  unfold automated_base
  by_cases hnil : positiveScores ai = []
  · rw [if_pos hnil]; norm_num
  · rw [if_neg hnil]
    have hlen : 0 < (positiveScores ai).length := List.length_pos.mpr hnil
    have hlenQ : (0 : ℚ) < (positiveScores ai).length := by exact_mod_cast hlen
    have hsum0 : 0 ≤ (positiveScores ai).sum :=
      List.sum_nonneg (fun s hs => le_of_lt (positiveScores_pos hs))
    have hsum10 : (positiveScores ai).sum ≤ (positiveScores ai).length * 10 := by
      have := List.sum_le_card_nsmul (positiveScores ai) 10 h10
      simpa [nsmul_eq_mul] using this
    constructor
    · exact div_nonneg (div_nonneg hsum0 (le_of_lt hlenQ)) (by norm_num)
    · rw [div_le_one (by norm_num : (0 : ℚ) < 10), div_le_iff₀ hlenQ]
      linarith

/-! Claim theorems. -/

/-- C6: when the reviewer upstream output is malformed (a response text was
obtained but no JSON could be extracted or parsed) or the review call itself
fails, review_content does not raise and does not abort the run — it is total
on every outcome and substitutes the fallback verdict: scores 7/7/7/8,
ready_for_human true, the parsing-failure note in improvements_needed, and
the diagnostic payload (the raw unparseable text, respectively the error
message of the failed call) in overall_feedback. -/
theorem review_failure_returns_default_verdict (text errorMessage : String) :
    ((review_content (ReviewOutcome.parseFailure text)).ready_for_human = some true) ∧
    ((review_content (ReviewOutcome.callFailure errorMessage)).ready_for_human = some true) ∧
    ((review_content (ReviewOutcome.parseFailure text)).quality_score = some 7) ∧
    ((review_content (ReviewOutcome.parseFailure text)).clarity_score = some 7) ∧
    ((review_content (ReviewOutcome.parseFailure text)).engagement_score = some 7) ∧
    ((review_content (ReviewOutcome.parseFailure text)).accuracy_score = some 8) ∧
    ((review_content (ReviewOutcome.callFailure errorMessage)).quality_score = some 7) ∧
    ((review_content (ReviewOutcome.parseFailure text)).improvements_needed
        = ["Error parsing AI response"]) ∧
    ((review_content (ReviewOutcome.callFailure errorMessage)).improvements_needed
        = ["Error parsing AI response"]) ∧
    ((review_content (ReviewOutcome.parseFailure text)).overall_feedback = text) ∧
    ((review_content (ReviewOutcome.callFailure errorMessage)).overall_feedback
        = errorMessage) :=
  ⟨rfl, rfl, rfl, rfl, rfl, rfl, rfl, rfl, rfl, rfl, rfl⟩

/-- C7 (amended): load_history yields the empty history for a MISSING
persisted file, and the stored history for a well-formed one; but a corrupted
(unparseable) file is handed to json.load with no exception handler, so
loading it raises instead of yielding an empty history. -/
theorem load_history_missing_empty :
    (load_history FileState.missing = Except.ok []) ∧
    (∀ h : List FeedbackEntry,
      load_history (FileState.wellFormed h) = Except.ok h) ∧
    (load_history FileState.malformed
      = Except.error PersistenceError.jsonParseError) :=
  ⟨rfl, fun _ => rfl, rfl⟩

/-- C7 counterexample: on a corrupted persisted file load_history does not
return an empty history — the json.load exception propagates. -/
theorem load_history_corrupt_file_raises :
    load_history FileState.malformed = Except.error PersistenceError.jsonParseError ∧
    load_history FileState.malformed ≠ Except.ok [] := by
  exact ⟨rfl, fun hcontra => Except.noConfusion hcontra⟩

/-- C10: predict_quality never reads its content argument; the result depends
only on the recorded history and the style field of the metadata, so any two
contents and any two metadata dictionaries agreeing on style give the same
prediction. -/
theorem predict_quality_ignores_content (m : RewardModel) (c₁ c₂ : String)
    (md₁ md₂ : Metadata) (h : md₁.style = md₂.style) :
    predict_quality m c₁ md₁ = predict_quality m c₂ md₂ := by
  unfold predict_quality
  rw [h]

/-- C10 witness: concrete instance of content-independence, with every other
metadata field also differing. -/
theorem predict_quality_ignores_content_witness :
    predict_quality ⟨[], []⟩ "abc" ⟨some "engaging", none, none⟩
      = predict_quality ⟨[], []⟩ "xyz" ⟨some "engaging", some [("k", 1)], some 5⟩ :=
  predict_quality_ignores_content ⟨[], []⟩ "abc" "xyz" _ _ rfl

/-- C9: record_feedback followed by get_statistics reports total_feedback
n + 1 and average_rating equal to the arithmetic mean of all n + 1 stored
ratings, the new one included. -/
theorem record_feedback_updates_statistics (m : RewardModel)
    (now vid content : String) (md : Metadata) (r : ℚ) (fb : String) :
    ((get_statistics (record_feedback m now vid content md r fb)).total_feedback
        = m.learning_history.length + 1) ∧
    ((get_statistics (record_feedback m now vid content md r fb)).average_rating
        = ((m.learning_history.map FeedbackEntry.human_rating).sum + r)
            / ((m.learning_history.length : ℚ) + 1)) := by
  constructor
  · simp [get_statistics, record_feedback]
  · simp [get_statistics, record_feedback]

/-- C3 counterexample: record_feedback stores an out-of-range human rating
unchanged — 3/2 is kept as 3/2, which is not in [0,1]; no clamping happens. -/
theorem record_feedback_stores_unclamped :
    ((record_feedback ⟨[], []⟩ "t" "v1" "c" {} (3/2) "fb").learning_history.map
        FeedbackEntry.human_rating = [3/2]) ∧
    ¬ ((3 : ℚ)/2 ≤ 1) := by
  constructor
  · rfl
  · norm_num

/-- C3 (amended): record_feedback stores human_rating exactly as given (the
float conversion is the identity, there is no clamping); consequently the
invariant that every stored rating lies in [0,1] holds provided the supplied
rating and all previously stored ratings lie in [0,1]. -/
theorem record_feedback_rating_preserved (m : RewardModel)
    (now vid content : String) (md : Metadata) (r : ℚ) (fb : String)
    (h0 : 0 ≤ r) (h1 : r ≤ 1)
    (hhist : ∀ e ∈ m.learning_history, 0 ≤ e.human_rating ∧ e.human_rating ≤ 1) :
    ((record_feedback m now vid content md r fb).learning_history.map
        FeedbackEntry.human_rating
      = m.learning_history.map FeedbackEntry.human_rating ++ [r]) ∧
    (∀ e ∈ (record_feedback m now vid content md r fb).learning_history,
      0 ≤ e.human_rating ∧ e.human_rating ≤ 1) := by
  constructor
  · simp [record_feedback]
  · intro e he
    simp only [record_feedback, List.mem_append, List.mem_singleton] at he
    rcases he with he | he
    · exact hhist e he
    · subst he
      exact ⟨h0, h1⟩

/-- C3 witness: the amended statement at a concrete in-range call. -/
theorem record_feedback_rating_preserved_witness :
    (record_feedback ⟨[], []⟩ "t" "v1" "c" {} (7/10) "fb").learning_history.map
        FeedbackEntry.human_rating
      = (⟨[], []⟩ : RewardModel).learning_history.map FeedbackEntry.human_rating
          ++ [7/10] :=
  (record_feedback_rating_preserved ⟨[], []⟩ "t" "v1" "c" {} (7/10) "fb"
    (by norm_num) (by norm_num) (by simp)).1

/-- C2 counterexample: with no positive automated score and a human feedback
rating of 2, calculate_reward returns 31/20, outside [0,1] — the claim fails
for arbitrary human rating values because nothing is clamped. -/
theorem calculate_reward_escapes_unit_interval :
    calculate_reward "" {} (some ⟨some 2⟩) = 31/20 ∧
    ¬ (calculate_reward "" {} (some ⟨some 2⟩) ≤ 1) := by
  have h : calculate_reward "" {} (some ⟨some 2⟩) = 31/20 := by
    simp [calculate_reward, automated_base, positiveScores]
    norm_num
  exact ⟨h, by rw [h]; norm_num⟩

/-- C2 (amended): calculate_reward stays within [0,1] whenever every present
verdict score is at most 10 and any human rating carried by the feedback lies
in [0,1]; unconditionally, with no positive automated score the baseline is
exactly 1/2, and with a rating present the result is
0.7 * rating + 0.3 * baseline. -/
theorem calculate_reward_bounds_amended (content : String) (ai : Verdict)
    (hf : Option HumanFeedback)
    (hq : ai.quality_score.getD 0 ≤ 10) (hc : ai.clarity_score.getD 0 ≤ 10)
    (he : ai.engagement_score.getD 0 ≤ 10) (ha : ai.accuracy_score.getD 0 ≤ 10)
    (hr : ∀ r : ℚ, hf = some ⟨some r⟩ → 0 ≤ r ∧ r ≤ 1) :
    (0 ≤ calculate_reward content ai hf ∧ calculate_reward content ai hf ≤ 1) ∧
    (positiveScores ai = [] → automated_base ai = 1/2) ∧
    (∀ r : ℚ, hf = some ⟨some r⟩ →
      calculate_reward content ai hf = 7/10 * r + 3/10 * automated_base ai) := by
  have hbase := automated_base_bounds ai (positiveScores_le_ten hq hc he ha)
  refine ⟨?_, ?_, ?_⟩
  · rcases hf with _ | ⟨_ | r⟩
    · simpa [calculate_reward] using hbase
    · simpa [calculate_reward] using hbase
    · have hrr := hr r rfl
      simp only [calculate_reward]
      constructor <;> linarith [hbase.1, hbase.2, hrr.1, hrr.2]
  · intro hnil
    simp [automated_base, hnil]
  · intro r hreq
    subst hreq
    simp [calculate_reward]

/-- C2 witness: the upper bound at a concrete in-range review and rating. -/
theorem calculate_reward_bounds_amended_witness :
    calculate_reward "c" { quality_score := some 8, clarity_score := some 7 }
        (some ⟨some (1/2)⟩) ≤ 1 :=
  (calculate_reward_bounds_amended "c"
    { quality_score := some 8, clarity_score := some 7 } (some ⟨some (1/2)⟩)
    (by norm_num) (by norm_num) (by norm_num) (by norm_num)
    (by rintro r hr
        have : (1 : ℚ)/2 = r := by simpa using hr
        subst this
        norm_num)).1.2

/-- The refinement loop adds at most fuel records to the trace it is given,
whatever the generator and reviewer capabilities return. -/
lemma refine_loop_trace_length (writer : String → String → String)
    (editor : String → Verdict → String) (reviewer : String → String → Verdict)
    (style original : String) :
    ∀ (fuel : Nat) (current : String) (trace : List IterationRecord),
      ((refine_loop writer editor reviewer style original fuel current trace).2).length
        ≤ trace.length + fuel := by
  intro fuel
  induction fuel with
  | zero =>
    intro current trace
    simp [refine_loop]
  | succ fuel ih =>
    intro current trace
    simp only [refine_loop]
    split
    · simp
    · refine le_trans (ih _ _) ?_
      simp
      omega

/-- C1: for every starting content, style and positive iteration budget, and
regardless of the verdicts the reviewer returns (reviewer, writer and editor
are arbitrary functions here), the refinement run of process_url terminates
— it is a total function of its fuel — with a trace of at most
max_iterations IterationRecords. -/
theorem refinement_trace_le_max_iterations (writer : String → String → String)
    (editor : String → Verdict → String) (reviewer : String → String → Verdict)
    (source style : String) (max_iterations : Nat) (hpos : 0 < max_iterations) :
    ((process_url writer editor reviewer source style max_iterations).2).length
      ≤ max_iterations := by
  have h := refine_loop_trace_length writer editor reviewer style source
    max_iterations source []
  simpa [process_url] using h

/-- C1 witness: a concrete run with a never-satisfied reviewer and budget 3
stays within 3 records. -/
theorem refinement_trace_le_max_iterations_witness :
    ((process_url (fun c _ => c) (fun c _ => c) (fun _ _ => ({} : Verdict))
        "abc" "engaging" 3).2).length ≤ 3 :=
  refinement_trace_le_max_iterations (fun c _ => c) (fun c _ => c)
    (fun _ _ => ({} : Verdict)) "abc" "engaging" 3 (by decide)

/-- C5: if the verdict of the first review (of the round-1 rewrite of the
source) has ready_for_human true and quality_score at least the hardcoded
threshold 8, the run stops after round 1: the trace is exactly the single
round-1 IterationRecord and the final content is the round-1 rewrite. -/
theorem first_review_ready_single_iteration (writer : String → String → String)
    (editor : String → Verdict → String) (reviewer : String → String → Verdict)
    (source style : String) (max_iterations : Nat) (hpos : 0 < max_iterations)
    (hready : (reviewer source (writer source style)).ready_for_human = some true)
    (hqual : 8 ≤ (reviewer source (writer source style)).quality_score.getD 0) :
    ((process_url writer editor reviewer source style max_iterations).2
      = [⟨1, writer source style, reviewer source (writer source style)⟩]) ∧
    ((process_url writer editor reviewer source style max_iterations).1
      = writer source style) := by
  obtain ⟨n, rfl⟩ := Nat.exists_eq_succ_of_ne_zero (Nat.pos_iff_ne_zero.mp hpos)
  constructor <;> simp [process_url, refine_loop, hready, hqual]

/-- Verdict used by the C5 witness: quality 9, ready for human. -/
def readyVerdict : Verdict := { quality_score := some 9, ready_for_human := some true }

/-- C5 witness: the scenario of the specification — source "ABC", style
"engaging", budget 3, first review quality 9 and ready — stops with a trace
of length 1. -/
theorem first_review_ready_single_iteration_witness :
    ((process_url (fun c _ => c) (fun c _ => c) (fun _ _ => readyVerdict)
        "ABC" "engaging" 3).2).length = 1 := by
  have h := first_review_ready_single_iteration (fun c _ => c) (fun c _ => c)
    (fun _ _ => readyVerdict) "ABC" "engaging" 3 (by decide) rfl (by decide)
  rw [h.1]
  rfl

/-- C4 counterexample: in a history where style A has one rating 9/10 and
style B two ratings 1/2, get_statistics names B best_style (B has the larger
rating SUM, 1 versus 9/10) even though A has the strictly higher MEAN rating
(9/10 versus 1/2) — best_style is not the style of highest mean rating. -/
theorem best_style_not_highest_mean :
    ((get_statistics ⟨[⟨"1", "t", 0, "A", [], 9/10, "", 1⟩,
        ⟨"2", "t", 0, "B", [], 1/2, "", 1⟩,
        ⟨"3", "t", 0, "B", [], 1/2, "", 1⟩], []⟩).best_style = "B") ∧
    ("A" ∈ stylesOf [⟨"1", "t", 0, "A", [], 9/10, "", 1⟩,
        ⟨"2", "t", 0, "B", [], 1/2, "", 1⟩,
        ⟨"3", "t", 0, "B", [], 1/2, "", 1⟩]) ∧
    (styleMean [⟨"1", "t", 0, "A", [], 9/10, "", 1⟩,
        ⟨"2", "t", 0, "B", [], 1/2, "", 1⟩,
        ⟨"3", "t", 0, "B", [], 1/2, "", 1⟩] "B"
      < styleMean [⟨"1", "t", 0, "A", [], 9/10, "", 1⟩,
        ⟨"2", "t", 0, "B", [], 1/2, "", 1⟩,
        ⟨"3", "t", 0, "B", [], 1/2, "", 1⟩] "A") := by
  refine ⟨?_, ?_, ?_⟩ <;>
    norm_num +decide [get_statistics, stylesOf, dedupFirst, styleRatings, styleMean,
      argmax_first]

/-- C4 (amended): on a non-empty history get_statistics returns as
best_style a style of the history whose rating SUM (the quantity the source
stores under the key named average) is maximal among all styles; on empty
history it returns total_feedback 0, average_rating 0, best_style unknown,
styles_tested 0 and no style details. -/
theorem get_statistics_best_style_by_total (m : RewardModel)
    (h : m.learning_history ≠ []) :
    ((get_statistics m).best_style ∈ stylesOf m.learning_history) ∧
    (∀ s ∈ stylesOf m.learning_history,
      (styleRatings m.learning_history s).sum
        ≤ (styleRatings m.learning_history (get_statistics m).best_style).sum) ∧
    (∀ prefs : List (String × ℚ),
      get_statistics ⟨[], prefs⟩
        = { total_feedback := 0, average_rating := 0, best_style := "unknown",
            styles_tested := 0, style_details := [] }) := by
  have spec := argmax_first_map_spec (fun s => (styleRatings m.learning_history s).sum)
      (stylesOf m.learning_history) "unknown" (stylesOf_ne_nil h)
  have hbest : (get_statistics m).best_style
      = (stylesOf m.learning_history).getD
          (argmax_first ((stylesOf m.learning_history).map
            (fun s => (styleRatings m.learning_history s).sum))) "unknown" := by
    simp [get_statistics, h]
  refine ⟨?_, ?_, ?_⟩
  · rw [hbest]
    exact spec.2.1
  · intro s hs
    rw [hbest]
    exact spec.2.2.1 s hs
  · intro prefs
    simp [get_statistics]

/-- C4 witness: the amended statement applied to the concrete two-style
history of the counterexample. -/
theorem get_statistics_best_style_by_total_witness :
    (get_statistics ⟨[⟨"1", "t", 0, "A", [], 9/10, "", 1⟩,
        ⟨"2", "t", 0, "B", [], 1/2, "", 1⟩,
        ⟨"3", "t", 0, "B", [], 1/2, "", 1⟩], []⟩).best_style
      ∈ stylesOf (⟨[⟨"1", "t", 0, "A", [], 9/10, "", 1⟩,
        ⟨"2", "t", 0, "B", [], 1/2, "", 1⟩,
        ⟨"3", "t", 0, "B", [], 1/2, "", 1⟩], []⟩ : RewardModel).learning_history :=
  (get_statistics_best_style_by_total ⟨[⟨"1", "t", 0, "A", [], 9/10, "", 1⟩,
        ⟨"2", "t", 0, "B", [], 1/2, "", 1⟩,
        ⟨"3", "t", 0, "B", [], 1/2, "", 1⟩], []⟩ (by decide)).1

/-- C8: with exploration rate 0 (and the actual np.random.random draw, which
is never negative), select_best_version on any non-empty variant list returns
the variant at the first index of maximal computed reward: its reward is
maximal over the whole list and every earlier variant has a strictly smaller
reward. -/
theorem select_best_version_exploitation (versions : List Variant) (draw : ℚ)
    (pick : Nat) (hne : versions ≠ []) (hdraw : 0 ≤ draw) :
    ∃ i, i < versions.length ∧
      select_best_version 0 draw pick versions
        = some (versions.getD i default) ∧
      (∀ v ∈ versions, variantReward v ≤ variantReward (versions.getD i default)) ∧
      (∀ j, j < i →
        variantReward (versions.getD j default)
          < variantReward (versions.getD i default)) := by
  have spec := argmax_first_map_spec variantReward versions default hne
  refine ⟨argmax_first (versions.map variantReward), spec.1, ?_,
    spec.2.2.1, spec.2.2.2⟩
  unfold select_best_version
  rw [if_neg (not_lt.mpr hdraw)]
  rw [List.getElem?_eq_getElem (by simpa using spec.1)]
  exact congrArg some (List.getD_eq_getElem versions default spec.1).symm

/-- C8 witness: on two concrete variants with rewards 6/10 and 1/2 the
exploitation branch produces a variant. -/
theorem select_best_version_exploitation_witness :
    (select_best_version 0 (1/2) 0
      [⟨"c1", "engaging", { quality_score := some 6 }⟩,
       ⟨"c2", "plain", { quality_score := some 5 }⟩]).isSome = true := by
  obtain ⟨i, hi, hsel, hmax, hstrict⟩ :=
    select_best_version_exploitation
      [⟨"c1", "engaging", { quality_score := some 6 }⟩,
       ⟨"c2", "plain", { quality_score := some 5 }⟩] (1/2) 0
      (by simp) (by norm_num)
  rw [hsel]
  rfl

end EchoWrite
